import Mathlib

/-!
Shallow embedding of the udptunnel relay (src/udptunnel.c).

Bytes are modelled as natural numbers and byte sequences as `List Nat`.
Socket addresses are abstracted to `Nat`; the `struct sockaddr_storage`
field `remote_udpaddr`, whose all-zero initial state is detected by
`ss_family == 0`, is modelled as `Option Nat` with `none` for unset.

The parse buffer `buf` of `struct relay` is modelled as the list of the
valid bytes `buf[0 .. buf_ptr)`, so the write offset `buf_ptr - buf` is
the length of the list, and `packet_start` is kept as the numeric offset
`packet_start - buf`.
-/

namespace Udptunnel

def TCPBUFFERSIZE : Nat := 65536

def UDPBUFFERSIZE : Nat := TCPBUFFERSIZE - 2

/-- States of the TCP stream parsing state machine of `struct relay`
(udptunnel.c lines 152-157).  In the source `packet_length` is a separate
field, but every assignment of `state` in `tcp_to_udp` assigns
`packet_length` in lockstep (32 with `reading_handshake`, 2 with
`reading_length`, the decoded length with `reading_packet`), so the
pending length is carried by the `reading_packet` constructor and
recovered by `PState.needed`. -/
inductive PState where
  | uninitialized
  | reading_handshake
  | reading_length
  | reading_packet (n : Nat)
  deriving DecidableEq, Repr

/-- Value held in `relay->packet_length` in each state: 0 at
`uninitialized` comes from the `memset` of `struct relay` in `main`,
`sizeof(relay->handshake) = 32` and `sizeof(uint16_t) = 2` from the
assignments in `tcp_to_udp`. -/
def PState.needed : PState → Nat
  | .uninitialized => 0
  | .reading_handshake => 32
  | .reading_length => 2
  | .reading_packet n => n

/-- Relay state (the fields of `struct relay` the stream logic uses). -/
structure Relay where
  remote_udpaddr : Option Nat
  expect_handshake : Bool
  handshake : List Nat
  buf : List Nat
  packet_start : Nat
  state : PState
  deriving DecidableEq, Repr

/-- Result of ntohs applied to two consecutive stream bytes, the first
being the most significant (network byte order, line 483). -/
def be16 (b1 b0 : Nat) : Nat := b1 * 256 + b0

/-- Outcome of the `while` loop of `tcp_to_udp` (lines 472-508). -/
structure LoopOut where
  buf : List Nat
  ps : Nat
  st : PState
  outs : List (List Nat)
  deriving DecidableEq, Repr

/-- One execution of the `while (buf_ptr - packet_start >= packet_length)`
loop of `tcp_to_udp` (lines 472-508).  `none` models the
`log_printf_exit(0, ...)` taken on a handshake mismatch (line 476).
`outs` collects, in order, the payloads handed to `send_udp_packet`.
The guard `st.needed ≤ buf.length - ps` is the loop condition with
`packet_length` recovered from the state (see `PState.needed`).
The `uninitialized` state cannot occur here because `tcp_to_udp`
replaces it before reading (lines 451-461); for totality that case
returns the arguments unchanged. -/
def parseLoop (hs : List Nat) (buf : List Nat) (ps : Nat) (st : PState) :
    Option LoopOut :=
  match st with
  | .uninitialized => some ⟨buf, ps, .uninitialized, []⟩
  | .reading_handshake =>
    if h : 32 ≤ buf.length - ps then
      -- memcmp(packet_start, &handshake, 32) (line 475)
      if (buf.drop ps).take 32 = hs then
        -- packet_start += 32; state = reading_length; packet_length = 2
        parseLoop hs buf (ps + 32) .reading_length
      else
        none
    else
      some ⟨buf, ps, .reading_handshake, []⟩
  | .reading_length =>
    if _h : 2 ≤ buf.length - ps then
      -- packet_length = ntohs(*(uint16_t *) packet_start); packet_start += 2
      parseLoop hs buf (ps + 2)
        (.reading_packet (be16 (buf.getD ps 0) (buf.getD (ps + 1) 0)))
    else
      some ⟨buf, ps, .reading_length, []⟩
  | .reading_packet n =>
    if h : n ≤ buf.length - ps then
      -- send_udp_packet(relay) on buf[ps .. ps+n), then compaction:
      -- memmove(buf, packet_start + packet_length, buf_ptr - ...);
      -- buf_ptr -= packet_length + (packet_start - buf); packet_start = buf
      (parseLoop hs (buf.drop (ps + n)) 0 .reading_length).map
        fun o => ⟨o.buf, o.ps, o.st, ((buf.drop ps).take n) :: o.outs⟩
    else
      some ⟨buf, ps, .reading_packet n, []⟩
termination_by 3 * (buf.length - ps) + (match st with | .reading_packet _ => 1 | _ => 0)
decreasing_by
  · omega
  · omega
  · simp only [List.length_drop]
    omega

/-- First-call initialization of the parser (lines 451-461):
`reading_handshake` (with `packet_length = 32`) when a handshake is
expected, else `reading_length` (with `packet_length = 2`); both buffer
pointers reset to the start of the buffer. -/
def Relay.initParser (r : Relay) : Relay :=
  if r.state = .uninitialized then
    { r with
      state := if r.expect_handshake then .reading_handshake else .reading_length,
      buf := [],
      packet_start := 0 }
  else r

/-- Observable outcome of one call of `tcp_to_udp`. -/
inductive TcpResult where
  | streamClosed
  | handshakeRejected
  | ok (r : Relay) (outs : List (List Nat))
  deriving DecidableEq, Repr

/-- Process exit status produced by the terminating outcomes of
`tcp_to_udp`: `log_printf_exit(0, log_notice, "Remote closed ...")` on a
zero read (line 468) and `log_printf_exit(0, log_info, "Received a bad
handshake ...")` on a handshake mismatch (line 476). -/
def TcpResult.exitCode : TcpResult → Option Nat
  | .streamClosed => some 0
  | .handshakeRejected => some 0
  | .ok _ _ => none

/-- Model of `tcp_to_udp` (lines 442-509).  `chunk` is the byte sequence
the single `read` on the TCP socket returned; the source bounds it by the
remaining buffer space `buf + TCPBUFFERSIZE - buf_ptr` (line 463), which
here is a hypothesis of the theorems rather than part of the function. -/
def tcp_to_udp (r0 : Relay) (chunk : List Nat) : TcpResult :=
  let r := r0.initParser
  if chunk.isEmpty then .streamClosed
  else
    match parseLoop r.handshake (r.buf ++ chunk) r.packet_start r.state with
    | none => .handshakeRejected
    | some o => .ok { r with buf := o.buf, packet_start := o.ps, state := o.st } o.outs

/-- Bytes put on the TCP stream by `udp_to_tcp` for a received datagram
`d` (lines 388-389): `p.length = htons(buflen)` makes the two big-endian
bytes of `buflen` truncated to `uint16_t`, and the single
`send(tcp_sock, &p, buflen + sizeof(p.length), 0)` writes those two bytes
followed by the payload. -/
def encode (d : List Nat) : List Nat :=
  (d.length % 65536) / 256 :: (d.length % 65536) % 256 :: d

/-- Concatenation of the encodings of a sequence of datagrams. -/
def encodeAll (ds : List (List Nat)) : List Nat := (ds.map encode).flatten

/-- Observable outcome of one call of `udp_to_tcp`. -/
inductive UdpResult where
  | dropped (r : Relay)
  | forwarded (r : Relay) (sent : List Nat)
  | fatalSend
  deriving DecidableEq, Repr

/-- Model of `udp_to_tcp` (lines 357-391).  `d` is the datagram returned
by `recvfrom` (bounded by `UDPBUFFERSIZE`, line 370) and `sender` its
source address; `sendOk` tells whether the subsequent `send` on the TCP
socket succeeds (on failure `err_sys` terminates the worker).  A
zero-length datagram returns before the `memcpy` that stores the sender
address (lines 373-374), so the relay state is returned untouched. -/
def udp_to_tcp (r : Relay) (d : List Nat) (sender : Nat) (sendOk : Bool) :
    UdpResult :=
  if d.length = 0 then .dropped r
  else
    let r1 := { r with remote_udpaddr := some sender }
    if sendOk then .forwarded r1 (encode d) else .fatalSend

/-- Outcome of the `sendto` inside `send_udp_packet`. -/
inductive SendtoOutcome where
  | success
  | refused
  | otherError
  deriving DecidableEq, Repr

/-- Observable outcome of `send_udp_packet`. -/
inductive SendResult where
  | droppedNoPeer
  | sent (dest : Nat) (payload : List Nat)
  | ignoredRefused (dest : Nat)
  | fatal
  deriving DecidableEq, Repr

/-- Model of `send_udp_packet` (lines 402-430).  `peer` is
`relay->remote_udpaddr` (`none` for `ss_family == 0`), `payload` the
bytes `packet_start[0 .. packet_length)`, `out` the outcome of the
`sendto`, and `gsoOk` whether the `getsockopt(SOL_SOCKET, SO_ERROR)`
clearing the pending error succeeds.  `fatal` is `err_sys`
(libs/utils, not in this tree; per the specification a fatal I/O error
terminating the worker with exit status 1). -/
def send_udp_packet (peer : Option Nat) (payload : List Nat)
    (out : SendtoOutcome) (gsoOk : Bool) : SendResult :=
  match peer with
  | none => .droppedNoPeer
  | some a =>
    match out with
    | .success => .sent a payload
    | .refused => if gsoOk then .ignoredRefused a else .fatal
    | .otherError => .fatal

/-- Relay state as set up by `main` (lines 628-634): zeroed by `memset`
(state `uninitialized`, empty buffer) with the 32-byte handshake token
copied in; `expect_handshake` is 1 in server mode, 0 in client mode;
`remote_udpaddr` is pre-set by `udp_client` in server mode. -/
def initRelay (expect : Bool) (hs : List Nat) (peer : Option Nat) : Relay :=
  { remote_udpaddr := peer
    expect_handshake := expect
    handshake := hs
    buf := []
    packet_start := 0
    state := .uninitialized }

/-- Default 32-byte handshake token installed by `parse_args`
(line 226): the numeric byte values of the literal
`udptunnel by md.` (16 ASCII bytes), then three NUL bytes, then the 13
escape bytes x01 x03 x06 x10 x15 x21 x28 x36 x45 x55 x66 x78 x91. -/
def default_handshake : List Nat :=
  [117, 100, 112, 116, 117, 110, 110, 101, 108, 32, 98, 121, 32, 109, 100, 46,
   0, 0, 0,
   0x01, 0x03, 0x06, 0x10, 0x15, 0x21, 0x28, 0x36, 0x45, 0x55, 0x66, 0x78, 0x91]

/-- Outcome of driving the relay over a whole arriving stream. -/
inductive RunResult where
  | blocked (r : Relay) (outs : List (List Nat))
  | closed (outs : List (List Nat))
  | rejected (outs : List (List Nat))
  deriving DecidableEq, Repr

/-- Drive `tcp_to_udp` over an arriving byte stream, each `read`
returning as much of the remaining stream as fits in the remaining
buffer space `buf + TCPBUFFERSIZE - buf_ptr` (line 463).  When that
space is zero, `read(fd, ptr, 0)` returns 0 and the source takes the
`log_printf_exit(0, log_notice, "Remote closed the connection")` path
(lines 467-468), modelled by `closed`; `blocked` models the stream being
exhausted with the process waiting in `select`. -/
def runStream (r0 : Relay) (stream : List Nat) (acc : List (List Nat)) :
    RunResult :=
  if hstream : stream = [] then .blocked r0 acc
  else
    if hchunk : stream.take (TCPBUFFERSIZE - r0.initParser.buf.length) = [] then
      .closed acc
    else
      match parseLoop r0.initParser.handshake
          (r0.initParser.buf ++ stream.take (TCPBUFFERSIZE - r0.initParser.buf.length))
          r0.initParser.packet_start r0.initParser.state with
      | none => .rejected acc
      | some o =>
        runStream { r0.initParser with buf := o.buf, packet_start := o.ps, state := o.st }
          (stream.drop (TCPBUFFERSIZE - r0.initParser.buf.length)) (acc ++ o.outs)
termination_by stream.length
decreasing_by
  simp only [List.length_drop]
  rcases Nat.eq_zero_or_pos (TCPBUFFERSIZE - (Relay.initParser r0).buf.length) with h0 | h0
  · exact absurd (List.take_eq_nil_iff.mpr (Or.inl h0)) hchunk
  · have : stream.length ≠ 0 := fun hlen => hstream (List.eq_nil_of_length_eq_zero hlen)
    omega

lemma parseLoop_uninitialized (hs buf : List Nat) (ps : Nat) :
    parseLoop hs buf ps .uninitialized = some ⟨buf, ps, .uninitialized, []⟩ := by
  rw [parseLoop]

lemma parseLoop_handshake_stall (hs buf : List Nat) (ps : Nat)
    (h : buf.length - ps < 32) :
    parseLoop hs buf ps .reading_handshake = some ⟨buf, ps, .reading_handshake, []⟩ := by
  rw [parseLoop, dif_neg (by omega)]

lemma parseLoop_handshake_ok (hs buf : List Nat) (ps : Nat)
    (h : 32 ≤ buf.length - ps) (hm : (buf.drop ps).take 32 = hs) :
    parseLoop hs buf ps .reading_handshake = parseLoop hs buf (ps + 32) .reading_length := by
  conv_lhs => rw [parseLoop]
  rw [dif_pos h, if_pos hm]

lemma parseLoop_handshake_bad (hs buf : List Nat) (ps : Nat)
    (h : 32 ≤ buf.length - ps) (hm : (buf.drop ps).take 32 ≠ hs) :
    parseLoop hs buf ps .reading_handshake = none := by
  rw [parseLoop, dif_pos h, if_neg hm]

lemma parseLoop_length_stall (hs buf : List Nat) (ps : Nat)
    (h : buf.length - ps < 2) :
    parseLoop hs buf ps .reading_length = some ⟨buf, ps, .reading_length, []⟩ := by
  rw [parseLoop, dif_neg (by omega)]

lemma parseLoop_length_step (hs buf : List Nat) (ps : Nat)
    (h : 2 ≤ buf.length - ps) :
    parseLoop hs buf ps .reading_length =
      parseLoop hs buf (ps + 2)
        (.reading_packet (be16 (buf.getD ps 0) (buf.getD (ps + 1) 0))) := by
  conv_lhs => rw [parseLoop]
  rw [dif_pos h]

lemma parseLoop_packet_stall (hs buf : List Nat) (ps n : Nat)
    (h : buf.length - ps < n) :
    parseLoop hs buf ps (.reading_packet n) = some ⟨buf, ps, .reading_packet n, []⟩ := by
  rw [parseLoop, dif_neg (by omega)]

lemma parseLoop_packet_step (hs buf : List Nat) (ps n : Nat)
    (h : n ≤ buf.length - ps) :
    parseLoop hs buf ps (.reading_packet n) =
      (parseLoop hs (buf.drop (ps + n)) 0 .reading_length).map
        fun o => ⟨o.buf, o.ps, o.st, ((buf.drop ps).take n) :: o.outs⟩ := by
  conv_lhs => rw [parseLoop]
  rw [dif_pos h]

lemma length_encode (d : List Nat) : (encode d).length = d.length + 2 := by
  simp [encode]

lemma parseLoop_nil_length (hs : List Nat) :
    parseLoop hs [] 0 .reading_length = some ⟨[], 0, .reading_length, []⟩ :=
  parseLoop_length_stall hs [] 0 (by simp)

/-- Parsing one encoded datagram at the front of the stream, from the
`reading_length` state with the parse offset at 0, yields its payload and
continues on the rest of the stream from the same configuration. -/
lemma parseLoop_encode_cons (hs d rest : List Nat) (hd : d.length ≤ 65534) :
    parseLoop hs (encode d ++ rest) 0 .reading_length =
      (parseLoop hs rest 0 .reading_length).map
        fun o => ⟨o.buf, o.ps, o.st, d :: o.outs⟩ := by
  have hm : d.length % 65536 = d.length := Nat.mod_eq_of_lt (by omega)
  have hbuf : encode d ++ rest = d.length / 256 :: d.length % 256 :: (d ++ rest) := by
    simp [encode, hm]
  have hbe : be16 (d.length / 256) (d.length % 256) = d.length := by
    unfold be16; omega
  rw [hbuf, parseLoop_length_step hs _ 0 (by simp)]
  simp only [List.getD_cons_zero, List.getD_cons_succ, hbe, Nat.zero_add]
  rw [parseLoop_packet_step hs _ 2 d.length (by simp)]
  have hdrop2 : (d.length / 256 :: d.length % 256 :: (d ++ rest)).drop 2 = d ++ rest := rfl
  have hdropAll : (d.length / 256 :: d.length % 256 :: (d ++ rest)).drop (2 + d.length) = rest := by
    rw [show 2 + d.length = d.length + 1 + 1 from by omega]
    simp [List.drop_succ_cons, List.drop_left]
  have htake : (d ++ rest).take d.length = d := List.take_left d rest
  rw [hdropAll]
  simp only [hdrop2, htake]

/-- Parsing the concatenation of the encodings of a sequence of
datagrams, from the `reading_length` state at offset 0, yields exactly
that sequence and returns to an empty buffer in `reading_length`. -/
lemma parseLoop_encodeAll (hs : List Nat) (ds : List (List Nat))
    (h : ∀ d ∈ ds, d.length ≤ 65534) :
    parseLoop hs (encodeAll ds) 0 .reading_length =
      some ⟨[], 0, .reading_length, ds⟩ := by
  induction ds with
  | nil => simpa [encodeAll] using parseLoop_nil_length hs
  | cons d ds ih =>
    have h1 : encodeAll (d :: ds) = encode d ++ encodeAll ds := by
      simp [encodeAll]
    rw [h1, parseLoop_encode_cons hs d _ (h d (by simp))]
    rw [ih (fun x hx => h x (by simp [hx]))]
    rfl


/-- One call of `tcp_to_udp` on a freshly initialized client-side relay
fed exactly one encoded datagram yields that datagram and returns the
relay to the initial parser configuration. -/
lemma tcp_to_udp_encode (hs d : List Nat) (peer : Option Nat)
    (hlen : d.length ≤ 65534) :
    tcp_to_udp (initRelay false hs peer) (encode d) =
      .ok ((initRelay false hs peer).initParser) [d] := by
  have hp : parseLoop hs (encode d) 0 .reading_length =
      some ⟨[], 0, .reading_length, [d]⟩ := by
    have h1 := parseLoop_encode_cons hs d [] hlen
    rw [List.append_nil] at h1
    rw [h1, parseLoop_nil_length]
    rfl
  simp only [tcp_to_udp, Relay.initParser, initRelay]
  simp [hp, show (encode d).isEmpty = false from rfl]

/-- C1: Codec roundtrip.  Encoding a datagram `d` with `|d| ≤ 65534` is
the 2-byte big-endian length prefix followed by the payload, written by
`udp_to_tcp` in a single send; the stream parser with
`expect_handshake = false` run over those bytes yields exactly `d`, and
over a concatenation of encodings yields the same sequence of payloads
in the same order. -/
theorem C1_codec_roundtrip :
    (∀ (r : Relay) (d : List Nat) (a : Nat),
        d ≠ [] → d.length ≤ 65534 →
        udp_to_tcp r d a true =
          .forwarded { r with remote_udpaddr := some a } (encode d))
    ∧ (∀ (hs d : List Nat) (peer : Option Nat),
        d.length ≤ 65534 →
        tcp_to_udp (initRelay false hs peer) (encode d) =
          .ok ((initRelay false hs peer).initParser) [d])
    ∧ (∀ (hs : List Nat) (ds : List (List Nat)),
        (∀ d ∈ ds, d.length ≤ 65534) →
        parseLoop hs (encodeAll ds) 0 .reading_length =
          some ⟨[], 0, .reading_length, ds⟩) := by
  refine ⟨?_, fun hs d peer hlen => tcp_to_udp_encode hs d peer hlen,
    fun hs ds h => parseLoop_encodeAll hs ds h⟩
  intro r d a hne hlen
  simp [udp_to_tcp, List.length_eq_zero, hne]

/-- Witness for C1 at concrete inputs. -/
theorem C1_codec_roundtrip_witness :
    udp_to_tcp (initRelay false default_handshake none) [7, 8] 5 true =
        .forwarded { initRelay false default_handshake none with
                     remote_udpaddr := some 5 } (encode [7, 8])
    ∧ tcp_to_udp (initRelay false default_handshake none) (encode [7, 8]) =
        .ok ((initRelay false default_handshake none).initParser) [[7, 8]]
    ∧ parseLoop default_handshake (encodeAll [[7, 8], []]) 0 .reading_length =
        some ⟨[], 0, .reading_length, [[7, 8], []]⟩ :=
  ⟨C1_codec_roundtrip.1 (initRelay false default_handshake none) [7, 8] 5
      (by decide) (by decide),
   C1_codec_roundtrip.2.1 default_handshake [7, 8] none (by decide),
   C1_codec_roundtrip.2.2 default_handshake [[7, 8], []] (by decide)⟩

/-- C5: ConnectionRefused tolerance.  A datagram send failing with
ECONNREFUSED is logged at info level, the pending socket error is
cleared via getsockopt(SO_ERROR), and the relay continues (a subsequent
successful send proceeds normally); any other send failure is fatal and
terminates the worker. -/
theorem C5_refusal_tolerance :
    (∀ (a : Nat) (payload : List Nat),
        send_udp_packet (some a) payload .refused true = .ignoredRefused a)
    ∧ (∀ (a : Nat) (payload : List Nat),
        send_udp_packet (some a) payload .success true = .sent a payload)
    ∧ (∀ (a : Nat) (payload : List Nat) (gsoOk : Bool),
        send_udp_packet (some a) payload .otherError gsoOk = .fatal)
    ∧ (∀ (a : Nat), SendResult.ignoredRefused a ≠ .fatal) := by
  refine ⟨fun a p => rfl, fun a p => rfl, fun a p g => rfl, fun a h => ?_⟩
  exact SendResult.noConfusion h

/-- C6: Zero-length frame forwarding.  A frame whose 2-byte length field
decodes to 0 makes the parser enter the payload state with n = 0,
immediately yield a zero-byte payload, and return to reading the next
length prefix; the zero-byte payload is sent as a zero-byte datagram to
the peer address when it is set. -/
theorem C6_zero_length_frame :
    be16 0 0 = 0
    ∧ (∀ (hs rest : List Nat),
        parseLoop hs (0 :: 0 :: rest) 0 .reading_length =
          (parseLoop hs rest 0 .reading_length).map
            fun o => ⟨o.buf, o.ps, o.st, [] :: o.outs⟩)
    ∧ (∀ (hs : List Nat),
        parseLoop hs [0, 0] 0 .reading_length =
          some ⟨[], 0, .reading_length, [[]]⟩)
    ∧ (∀ (a : Nat), send_udp_packet (some a) [] .success true = .sent a []) := by
  refine ⟨rfl, fun hs rest => ?_, fun hs => ?_, fun a => rfl⟩
  · simpa using parseLoop_encode_cons hs [] rest (by simp)
  · have h1 := parseLoop_encode_cons hs [] [] (by simp)
    simp only [List.append_nil] at h1
    have h2 : encode [] = [0, 0] := rfl
    rw [h2] at h1
    rw [h1, parseLoop_nil_length]
    rfl

/-- C7: Zero-length datagram drop.  A zero-length datagram received on
the datagram socket is dropped: nothing is sent on the stream socket and
the relay state, in particular `remote_udpaddr`, is returned exactly as
it was, because `udp_to_tcp` returns before storing the sender
address. -/
theorem C7_zero_length_datagram_drop :
    ∀ (r : Relay) (sender : Nat) (sendOk : Bool),
      udp_to_tcp r [] sender sendOk = .dropped r :=
  fun r sender sendOk => rfl

/-- C8: No-peer drop.  When `remote_udpaddr` is unset (address family 0),
`send_udp_packet` drops the payload without attempting a send, for every
payload and every would-be send outcome, and this outcome is not the
fatal one. -/
theorem C8_no_peer_drop :
    (∀ (payload : List Nat) (out : SendtoOutcome) (gsoOk : Bool),
        send_udp_packet none payload out gsoOk = .droppedNoPeer)
    ∧ SendResult.droppedNoPeer ≠ .fatal := by
  refine ⟨fun p o g => rfl, fun h => SendResult.noConfusion h⟩

/-- C3 counterexample: the claim places the three NUL bytes inside the
first 16 bytes of the default token (as the trailing three of
`udptunnel by md.`), but bytes 13, 14, 15 of the token are the ASCII
codes of `m`, `d`, `.` — none of them NUL.  The NULs are bytes 16-18. -/
theorem C3_counterexample :
    default_handshake.getD 13 0 = 109
    ∧ default_handshake.getD 14 0 = 100
    ∧ default_handshake.getD 15 0 = 46
    ∧ ¬(default_handshake.getD 13 0 = 0 ∧ default_handshake.getD 14 0 = 0
        ∧ default_handshake.getD 15 0 = 0) := by
  decide

/-- C3 amended: the default 32-byte token is the 16 ASCII bytes of
`udptunnel by md.` (none of which is NUL), then three NUL bytes, then
the 13 bytes 01 03 06 10 15 21 28 36 45 55 66 78 91 (hex); the NULs pad
the 13-byte sequence to 16 bytes and are not part of the first 16. -/
theorem C3_default_handshake :
    default_handshake.length = 32
    ∧ default_handshake.take 16 =
        [117, 100, 112, 116, 117, 110, 110, 101, 108, 32, 98, 121, 32, 109, 100, 46]
    ∧ (∀ b ∈ default_handshake.take 16, b ≠ 0)
    ∧ default_handshake.drop 16 =
        [0, 0, 0] ++
          [0x01, 0x03, 0x06, 0x10, 0x15, 0x21, 0x28, 0x36, 0x45, 0x55, 0x66, 0x78, 0x91]
    ∧ ([0, 0, 0] ++
        [0x01, 0x03, 0x06, 0x10, 0x15, 0x21, 0x28, 0x36, 0x45, 0x55, 0x66, 0x78,
         0x91]).length = 16 := by
  decide

/-- C4: Handshake strictness.  In server mode any first 32 stream bytes
that differ from the token in at least one position make the relay
reject the handshake (an outcome whose process exit status is 0), and an
exact 32-byte match consumes the 32 bytes and moves the parser to
reading length prefixes. -/
theorem C4_handshake_strictness :
    (∀ (hs c : List Nat) (peer : Option Nat),
        32 ≤ c.length → c.take 32 ≠ hs →
        tcp_to_udp (initRelay true hs peer) c = .handshakeRejected)
    ∧ TcpResult.exitCode .handshakeRejected = some 0
    ∧ (∀ (hs : List Nat) (peer : Option Nat), hs.length = 32 →
        tcp_to_udp (initRelay true hs peer) hs =
          .ok { initRelay true hs peer with
                buf := hs, packet_start := 32, state := .reading_length } []) := by
  refine ⟨?_, rfl, ?_⟩
  · intro hs c peer hlen hne
    have hbad : parseLoop hs c 0 .reading_handshake = none := by
      apply parseLoop_handshake_bad hs c 0 (by omega)
      simpa using hne
    have hemp : c.isEmpty = false := by
      cases c with
      | nil => simp at hlen
      | cons a t => rfl
    simp only [tcp_to_udp, Relay.initParser, initRelay]
    simp [hbad, hemp]
  · intro hs peer h32
    have hstep : parseLoop hs hs 0 .reading_handshake =
        parseLoop hs hs 32 .reading_length := by
      apply parseLoop_handshake_ok hs hs 0 (by omega)
      rw [List.drop_zero]
      exact List.take_of_length_le (by omega)
    have hstall : parseLoop hs hs 32 .reading_length =
        some ⟨hs, 32, .reading_length, []⟩ :=
      parseLoop_length_stall hs hs 32 (by omega)
    have hemp : hs.isEmpty = false := by
      cases hs with
      | nil => simp at h32
      | cons a t => rfl
    simp only [tcp_to_udp, Relay.initParser, initRelay]
    simp [hemp, hstep, hstall]

/-- Witness for C4 at concrete inputs. -/
theorem C4_handshake_strictness_witness :
    tcp_to_udp (initRelay true default_handshake none) (List.replicate 32 7) =
        .handshakeRejected
    ∧ tcp_to_udp (initRelay true default_handshake none) default_handshake =
        .ok { initRelay true default_handshake none with
              buf := default_handshake, packet_start := 32,
              state := .reading_length } [] :=
  ⟨C4_handshake_strictness.1 default_handshake (List.replicate 32 7) none
      (by decide) (by decide),
   C4_handshake_strictness.2.2 default_handshake none (by decide)⟩

/-- Parse offsets stay inside the buffer and the buffer never exceeds
TCPBUFFERSIZE bytes across one run of the parse loop. -/
lemma parseLoop_wf (hs buf : List Nat) (ps : Nat) (st : PState) :
    ∀ o : LoopOut, parseLoop hs buf ps st = some o →
      ps ≤ buf.length → buf.length ≤ TCPBUFFERSIZE →
      o.ps ≤ o.buf.length ∧ o.buf.length ≤ TCPBUFFERSIZE := by
  induction buf, ps, st using parseLoop.induct with
  | hs => exact hs
  | case1 buf ps =>
    intro o he h1 h2
    rw [parseLoop_uninitialized] at he
    have ho := Option.some.inj he
    subst ho
    exact ⟨h1, h2⟩
  | case2 buf ps h hm ih =>
    intro o he h1 h2
    rw [parseLoop_handshake_ok hs buf ps h hm] at he
    exact ih o he (by omega) h2
  | case3 buf ps h hm =>
    intro o he h1 h2
    rw [parseLoop_handshake_bad hs buf ps h hm] at he
    exact Option.noConfusion he
  | case4 buf ps h =>
    intro o he h1 h2
    rw [parseLoop_handshake_stall hs buf ps (by omega)] at he
    have ho := Option.some.inj he
    subst ho
    exact ⟨h1, h2⟩
  | case5 buf ps h ih =>
    intro o he h1 h2
    rw [parseLoop_length_step hs buf ps h] at he
    exact ih o he (by omega) h2
  | case6 buf ps h =>
    intro o he h1 h2
    rw [parseLoop_length_stall hs buf ps (by omega)] at he
    have ho := Option.some.inj he
    subst ho
    exact ⟨h1, h2⟩
  | case7 buf ps n h ih =>
    intro o he h1 h2
    rw [parseLoop_packet_step hs buf ps n h] at he
    obtain ⟨o2, ho2, rfl⟩ := Option.map_eq_some'.mp he
    have hd : (buf.drop (ps + n)).length ≤ buf.length := by
      simp [List.length_drop]
    simpa using ih o2 ho2 (Nat.zero_le _) (le_trans hd h2)
  | case8 buf ps n h =>
    intro o he h1 h2
    rw [parseLoop_packet_stall hs buf ps n (by omega)] at he
    have ho := Option.some.inj he
    subst ho
    exact ⟨h1, h2⟩

/-- C9: Parse-buffer invariant.  At startup and across every invocation
of `tcp_to_udp` whose read is bounded by the remaining buffer space
`buf + TCPBUFFERSIZE - buf_ptr` (as the `read` call at line 463 is), the
offsets satisfy `0 ≤ packet_start ≤ write offset ≤ TCPBUFFERSIZE`, so
the parse buffer never holds more than 65536 bytes. -/
theorem C9_buffer_invariant :
    (∀ (expect : Bool) (hs : List Nat) (peer : Option Nat),
        (initRelay expect hs peer).packet_start ≤ (initRelay expect hs peer).buf.length
        ∧ (initRelay expect hs peer).buf.length ≤ TCPBUFFERSIZE)
    ∧ (∀ (r : Relay) (chunk : List Nat) (r1 : Relay) (outs : List (List Nat)),
        r.packet_start ≤ r.buf.length → r.buf.length ≤ TCPBUFFERSIZE →
        chunk.length ≤ TCPBUFFERSIZE - r.initParser.buf.length →
        tcp_to_udp r chunk = .ok r1 outs →
        r1.packet_start ≤ r1.buf.length ∧ r1.buf.length ≤ TCPBUFFERSIZE) := by
  constructor
  · intro expect hs peer
    exact ⟨le_refl 0, by simp [initRelay, TCPBUFFERSIZE]⟩
  · intro r chunk r1 outs h1 h2 hc he
    have hrI1 : r.initParser.packet_start ≤ r.initParser.buf.length := by
      unfold Relay.initParser
      split
      · simp
      · exact h1
    have hrI2 : r.initParser.buf.length ≤ TCPBUFFERSIZE := by
      unfold Relay.initParser
      split
      · simp [TCPBUFFERSIZE]
      · exact h2
    simp only [tcp_to_udp] at he
    by_cases hch : chunk.isEmpty
    · simp [hch] at he
    · rw [Bool.not_eq_true] at hch
      simp only [hch, Bool.false_eq_true, if_false] at he
      cases hp : parseLoop r.initParser.handshake (r.initParser.buf ++ chunk)
          r.initParser.packet_start r.initParser.state with
      | none => simp [hp] at he
      | some o =>
        simp only [hp] at he
        have hlen : (r.initParser.buf ++ chunk).length ≤ TCPBUFFERSIZE := by
          simp only [List.length_append]
          omega
        have hps : r.initParser.packet_start ≤ (r.initParser.buf ++ chunk).length := by
          simp only [List.length_append]
          omega
        have hw := parseLoop_wf r.initParser.handshake (r.initParser.buf ++ chunk)
          r.initParser.packet_start r.initParser.state o hp hps hlen
        rw [TcpResult.ok.injEq] at he
        obtain ⟨he1, he2⟩ := he
        subst he1
        simpa using hw

/-- Witness for C9 at concrete inputs. -/
theorem C9_buffer_invariant_witness :
    ((initRelay false default_handshake none).packet_start ≤
        (initRelay false default_handshake none).buf.length
      ∧ (initRelay false default_handshake none).buf.length ≤ TCPBUFFERSIZE)
    ∧ ((initRelay false default_handshake none).initParser.packet_start ≤
        (initRelay false default_handshake none).initParser.buf.length
      ∧ (initRelay false default_handshake none).initParser.buf.length ≤ TCPBUFFERSIZE) :=
  ⟨C9_buffer_invariant.1 false default_handshake none,
   C9_buffer_invariant.2 (initRelay false default_handshake none) (encode [7])
      ((initRelay false default_handshake none).initParser) [[7]]
      (le_refl 0) (by decide)
      (by decide)
      (tcp_to_udp_encode default_handshake [7] none (by decide))⟩

/-- Truth of being one of the two post-handshake parser states,
`reading_length` or `reading_packet`. -/
def PState.postHandshake : PState → Bool
  | .reading_length => true
  | .reading_packet _ => true
  | .uninitialized => false
  | .reading_handshake => false

/-- Once the parser is in a post-handshake state, every state reachable
through the parse loop is again post-handshake: there is no transition
back into `reading_handshake` (or `uninitialized`). -/
lemma parseLoop_postHandshake (hs buf : List Nat) (ps : Nat) (st : PState) :
    ∀ o : LoopOut, parseLoop hs buf ps st = some o →
      st.postHandshake = true → o.st.postHandshake = true := by
  induction buf, ps, st using parseLoop.induct with
  | hs => exact hs
  | case1 buf ps =>
    intro o he hst
    exact Bool.noConfusion hst
  | case2 buf ps h hm ih =>
    intro o he hst
    exact Bool.noConfusion hst
  | case3 buf ps h hm =>
    intro o he hst
    exact Bool.noConfusion hst
  | case4 buf ps h =>
    intro o he hst
    exact Bool.noConfusion hst
  | case5 buf ps h ih =>
    intro o he hst
    rw [parseLoop_length_step hs buf ps h] at he
    exact ih o he rfl
  | case6 buf ps h =>
    intro o he hst
    rw [parseLoop_length_stall hs buf ps (by omega)] at he
    have ho := Option.some.inj he
    subst ho
    rfl
  | case7 buf ps n h ih =>
    intro o he hst
    rw [parseLoop_packet_step hs buf ps n h] at he
    obtain ⟨o2, ho2, rfl⟩ := Option.map_eq_some'.mp he
    exact ih o2 ho2 rfl
  | case8 buf ps n h =>
    intro o he hst
    rw [parseLoop_packet_stall hs buf ps n (by omega)] at he
    have ho := Option.some.inj he
    subst ho
    rfl

/-- From the `reading_handshake` state the loop either has not yet left
it (fewer than 32 bytes available: everything returned unchanged) or has
moved for good into a post-handshake state. -/
lemma parseLoop_from_handshake (hs buf : List Nat) (ps : Nat) :
    ∀ o : LoopOut, parseLoop hs buf ps .reading_handshake = some o →
      o = ⟨buf, ps, .reading_handshake, []⟩ ∨ o.st.postHandshake = true := by
  intro o he
  by_cases h : 32 ≤ buf.length - ps
  · by_cases hm : (buf.drop ps).take 32 = hs
    · rw [parseLoop_handshake_ok hs buf ps h hm] at he
      exact Or.inr (parseLoop_postHandshake hs buf (ps + 32) .reading_length o he rfl)
    · rw [parseLoop_handshake_bad hs buf ps h hm] at he
      exact Option.noConfusion he
  · rw [parseLoop_handshake_stall hs buf ps (by omega)] at he
    exact Or.inl (Option.some.inj he).symm

/-- C10: Handshake validated at most once.  The parser enters
`reading_handshake` only from `uninitialized` when `expect_handshake` is
set (with `expect_handshake = false` initialization goes straight to
`reading_length` and the handshake state is never entered); every state
reachable from a post-handshake state is again `reading_length` or
`reading_packet`; and from `reading_handshake` the loop either has not
yet consumed the handshake or has moved into a post-handshake state,
never back. -/
theorem C10_handshake_once :
    (∀ (hs : List Nat) (peer : Option Nat),
        (initRelay false hs peer).initParser.state = .reading_length)
    ∧ (∀ (hs : List Nat) (peer : Option Nat),
        (initRelay true hs peer).initParser.state = .reading_handshake)
    ∧ (∀ (hs buf : List Nat) (ps : Nat) (st : PState) (o : LoopOut),
        parseLoop hs buf ps st = some o → st.postHandshake = true →
        o.st.postHandshake = true)
    ∧ (∀ (hs buf : List Nat) (ps : Nat) (o : LoopOut),
        parseLoop hs buf ps .reading_handshake = some o →
        o = ⟨buf, ps, .reading_handshake, []⟩ ∨ o.st.postHandshake = true)
    ∧ (∀ (r : Relay) (chunk : List Nat) (r1 : Relay) (outs : List (List Nat)),
        r.state.postHandshake = true → tcp_to_udp r chunk = .ok r1 outs →
        r1.state.postHandshake = true) := by
  refine ⟨fun hs peer => rfl, fun hs peer => rfl,
    fun hs buf ps st o he hst => parseLoop_postHandshake hs buf ps st o he hst,
    fun hs buf ps o he => parseLoop_from_handshake hs buf ps o he, ?_⟩
  intro r chunk r1 outs hst he
  have hinit : r.initParser = r := by
    unfold Relay.initParser
    rw [if_neg]
    intro hu
    rw [hu] at hst
    exact Bool.noConfusion hst
  simp only [tcp_to_udp, hinit] at he
  by_cases hch : chunk.isEmpty
  · simp [hch] at he
  · rw [Bool.not_eq_true] at hch
    simp only [hch, Bool.false_eq_true, if_false] at he
    cases hp : parseLoop r.handshake (r.buf ++ chunk) r.packet_start r.state with
    | none => simp [hp] at he
    | some o =>
      simp only [hp] at he
      rw [TcpResult.ok.injEq] at he
      obtain ⟨he1, he2⟩ := he
      subst he1
      simpa using parseLoop_postHandshake r.handshake (r.buf ++ chunk)
        r.packet_start r.state o hp hst

/-- Witness for C10 at concrete inputs. -/
theorem C10_handshake_once_witness :
    ((initRelay false default_handshake none).initParser.state = .reading_length)
    ∧ (PState.reading_length.postHandshake = true)
    ∧ ((⟨[], 0, .reading_handshake, []⟩ : LoopOut) = ⟨[], 0, .reading_handshake, []⟩
        ∨ (⟨[], 0, .reading_handshake, []⟩ : LoopOut).st.postHandshake = true) :=
  ⟨C10_handshake_once.1 default_handshake none,
   C10_handshake_once.2.2.1 default_handshake [] 0 .reading_length
     ⟨[], 0, .reading_length, []⟩ (parseLoop_nil_length default_handshake) rfl,
   C10_handshake_once.2.2.2.1 default_handshake [] 0 ⟨[], 0, .reading_handshake, []⟩
     (parseLoop_handshake_stall default_handshake [] 0 (by decide))⟩

lemma runStream_closed (r0 : Relay) (stream : List Nat) (acc : List (List Nat))
    (h1 : stream ≠ [])
    (h2 : stream.take (TCPBUFFERSIZE - r0.initParser.buf.length) = []) :
    runStream r0 stream acc = .closed acc := by
  rw [runStream, dif_neg h1, dif_pos h2]

lemma runStream_step (r0 : Relay) (stream : List Nat) (acc : List (List Nat))
    (o : LoopOut) (h1 : stream ≠ [])
    (h2 : stream.take (TCPBUFFERSIZE - r0.initParser.buf.length) ≠ [])
    (hp : parseLoop r0.initParser.handshake
        (r0.initParser.buf ++ stream.take (TCPBUFFERSIZE - r0.initParser.buf.length))
        r0.initParser.packet_start r0.initParser.state = some o) :
    runStream r0 stream acc =
      runStream { r0.initParser with buf := o.buf, packet_start := o.ps, state := o.st }
        (stream.drop (TCPBUFFERSIZE - r0.initParser.buf.length)) (acc ++ o.outs) := by
  conv_lhs => rw [runStream]
  rw [dif_neg h1, dif_neg h2, hp]

/-- C2 as stated fails on the code: after the 32-byte handshake the
parse offset sits at 32 and the buffer is compacted only after a
completed packet, so the first frame needs its whole payload inside
`buf[34 .. 65536)` — at most 65502 bytes.  A first frame of 65534
payload bytes can never complete: reads fill the buffer, the next
`read` is issued with size 0, returns 0, and the relay exits as if the
peer had closed, emitting no datagram at all. -/
theorem C2_max_frame_bug (hs d : List Nat) (peer : Option Nat)
    (h32 : hs.length = 32) (hd : d.length = 65534) :
    runStream (initRelay true hs peer) (hs ++ encode d) [] = .closed [] := by
  have henc : encode d = 255 :: 254 :: d := by
    unfold encode
    rw [hd]
  rw [henc]
  have htake65502 : (d.take 65502).length = 65502 := by
    rw [List.length_take, hd]
    omega
  have hbuf1len : (hs ++ 255 :: 254 :: d.take 65502).length = 65536 := by
    simp [h32, htake65502]
  have htake : (hs ++ 255 :: 254 :: d).take 65536 =
      hs ++ 255 :: 254 :: d.take 65502 := by
    rw [List.take_append_eq_append_take, List.take_of_length_le (by omega), h32]
    norm_num
  have hdrop : (hs ++ 255 :: 254 :: d).drop 65536 = d.drop 65502 := by
    rw [List.drop_append_eq_append_drop, List.drop_eq_nil_of_le (by omega), h32]
    norm_num
  have hg1 : (hs ++ 255 :: 254 :: d.take 65502).getD 32 0 = 255 := by
    rw [List.getD_append_right _ _ _ _ (by omega), h32]
    simp
  have hg2 : (hs ++ 255 :: 254 :: d.take 65502).getD (32 + 1) 0 = 254 := by
    rw [List.getD_append_right _ _ _ _ (by omega), h32]
    simp
  have hpl : parseLoop hs (hs ++ 255 :: 254 :: d.take 65502) 0 .reading_handshake =
      some ⟨hs ++ 255 :: 254 :: d.take 65502, 34, .reading_packet 65534, []⟩ := by
    rw [parseLoop_handshake_ok hs _ 0 (by omega)
      (by rw [List.drop_zero]; exact List.take_left' h32)]
    rw [show (0 + 32 : Nat) = 32 from by norm_num]
    rw [parseLoop_length_step hs _ 32 (by omega)]
    rw [hg1, hg2]
    rw [show be16 255 254 = 65534 from by unfold be16; norm_num]
    rw [show (32 + 2 : Nat) = 34 from by norm_num]
    exact parseLoop_packet_stall hs _ 34 65534 (by omega)
  have hInit : (initRelay true hs peer).initParser =
      ⟨peer, true, hs, [], 0, .reading_handshake⟩ := rfl
  have hstep := runStream_step (initRelay true hs peer) (hs ++ 255 :: 254 :: d) []
    ⟨hs ++ 255 :: 254 :: d.take 65502, 34, .reading_packet 65534, []⟩
    (by simp)
    (by rw [hInit]
        show (hs ++ 255 :: 254 :: d).take (TCPBUFFERSIZE - 0) ≠ []
        rw [show TCPBUFFERSIZE - 0 = 65536 from rfl, htake]
        simp)
    (by rw [hInit]
        show parseLoop hs ([] ++ (hs ++ 255 :: 254 :: d).take (TCPBUFFERSIZE - 0)) 0
            .reading_handshake = _
        rw [show TCPBUFFERSIZE - 0 = 65536 from rfl, htake, List.nil_append]
        exact hpl)
  rw [hstep, hInit]
  have hstream2 : (hs ++ 255 :: 254 :: d).drop (TCPBUFFERSIZE -
      (⟨peer, true, hs, [], 0, .reading_handshake⟩ : Relay).buf.length) =
      d.drop 65502 := by
    show (hs ++ 255 :: 254 :: d).drop (TCPBUFFERSIZE - 0) = _
    rw [show TCPBUFFERSIZE - 0 = 65536 from rfl, hdrop]
  rw [hstream2]
  show runStream (⟨peer, true, hs, hs ++ 255 :: 254 :: d.take 65502, 34,
      .reading_packet 65534⟩ : Relay) (d.drop 65502) [] = .closed []
  apply runStream_closed
  · intro hnil
    have := congrArg List.length hnil
    rw [List.length_drop, hd] at this
    norm_num at this
  · have hInit2 : (⟨peer, true, hs, hs ++ 255 :: 254 :: d.take 65502, 34,
        .reading_packet 65534⟩ : Relay).initParser =
        ⟨peer, true, hs, hs ++ 255 :: 254 :: d.take 65502, 34,
          .reading_packet 65534⟩ := by
      unfold Relay.initParser
      rw [if_neg]
      intro hu
      exact PState.noConfusion hu
    rw [hInit2]
    show (d.drop 65502).take (TCPBUFFERSIZE - (hs ++ 255 :: 254 :: d.take 65502).length) = []
    rw [hbuf1len, show TCPBUFFERSIZE - 65536 = 0 from rfl, List.take_zero]

/-- Witness-style evaluation of C2 at a concrete failing input. -/
theorem C2_max_frame_bug_witness :
    runStream (initRelay true default_handshake (some 9))
        (default_handshake ++ encode (List.replicate 65534 7)) [] = .closed [] :=
  C2_max_frame_bug default_handshake (List.replicate 65534 7) (some 9)
    (by decide) (by rw [List.length_replicate])

end Udptunnel
